import Mathlib

/-!
Verification development for the `ggufmeta` GGUF v3 metadata reader.

The Go sources are shallowly embedded here:
* `scanner.go`  — the byte scanner (`scanner`, `readExact`, typed readers,
  `GGUFString`, `Align`);
* `types.go`    — type constants, `typeNames`, `policy`, the event records;
* the value-reading file — `readScalar`, `readArray`, `readExpandedArray`,
  `bulkSkipArrayElements`, `readValue`;
* `parser.go` (shown in the README) — `newParser`, `nextKV`.

Bytes are modelled as `List Nat`; the Go `io.Reader` plus position counter
becomes a `scanner` record holding the remaining bytes and the position.
Because Go mutates the scanner in place, a failing operation still leaves an
observable scanner state; every operation therefore returns
`Except (Err × scanner) (result × scanner)` so that the post-error state is
kept.  The Go typed errors are `fmt.Errorf` strings; they are represented by an
`Err` inductive matching the taxonomy of the spec (ShortRead, BadMagic,
UnsupportedVersion, OversizedField = `stringTooLarge`, UnknownType =
`badScalarTag`).  A Go runtime panic (out-of-range slice index) is modelled by
the distinguished `Err.indexPanic`.  IEEE-754 floats are kept as their raw
bit patterns (`math.Float32frombits` is a pure bit reinterpretation and no
claim inspects float arithmetic).  Debug printing (`pol.debug`) is I/O only
and is not modelled.
-/

/-- Byte order chosen for multi-byte integer decoding (Go `binary.ByteOrder`). -/
inductive ByteOrder where
  | little
  | big
deriving DecidableEq, Repr

/-- The scanner from `scanner.go`: an `io.Reader` (remaining bytes), the byte
order fixed during header resolution, and the position counter. -/
structure scanner where
  order : ByteOrder
  data : List Nat
  pos : Nat
deriving DecidableEq, Repr

/-- Error taxonomy.  Go uses `fmt.Errorf` strings; constructors carry the data
the corresponding message interpolates.  `indexPanic` models a Go runtime
panic from an out-of-range slice index.  `fuelExhausted` is an artefact of the
structural-recursion encoding of `bulkSkipArrayElements` and is unreachable
from the wrapper (see `skipF_fuel_agree` / the adequacy lemma below). -/
inductive Err where
  | shortRead
  | badMagic (got : List Nat)
  | unsupportedVersion (le be : Nat)
  | stringTooLarge (n max : Nat)
  | badScalarTag (tag : Nat)
  | indexPanic (idx : Nat)
  | fuelExhausted
deriving DecidableEq, Repr

/-- Big-endian value of a byte list (Go `binary.BigEndian.UintN`). -/
def beVal (bs : List Nat) : Nat := bs.foldl (fun a b => a * 256 + b) 0

/-- Little-endian value of a byte list (Go `binary.LittleEndian.UintN`). -/
def leVal (bs : List Nat) : Nat := beVal bs.reverse

/-- Decode a byte list per the byte order of the scanner (`s.order.UintN(b)`). -/
def ordVal (o : ByteOrder) (bs : List Nat) : Nat :=
  match o with
  | .little => leVal bs
  | .big => beVal bs

/-- Twos-complement reinterpretation of a `w`-byte unsigned value
(Go `int8(b[0])`, `int16(u)`, `int32(u)`, `int64(u)`). -/
def toSigned (w v : Nat) : Int :=
  if v < 2 ^ (8 * w - 1) then (v : Int) else (v : Int) - 2 ^ (8 * w)

/-- `readExact` from `scanner.go`: read exactly `n` bytes, advancing `pos` by
`n` on success.  On a short read, `io.ReadFull` has drained the reader but
`pos` is not updated. -/
def scanner.readExact (s : scanner) (n : Nat) :
    Except (Err × scanner) (List Nat × scanner) :=
  if n ≤ s.data.length then
    .ok (s.data.take n, { s with data := s.data.drop n, pos := s.pos + n })
  else
    .error (.shortRead, { s with data := [] })

/-- `U8` from `scanner.go`. -/
def scanner.U8 (s : scanner) : Except (Err × scanner) (Nat × scanner) :=
  (s.readExact 1).map fun p => (p.1.headD 0, p.2)

/-- `I8` from `scanner.go`. -/
def scanner.I8 (s : scanner) : Except (Err × scanner) (Int × scanner) :=
  (s.readExact 1).map fun p => (toSigned 1 (p.1.headD 0), p.2)

/-- `U16` from `scanner.go`. -/
def scanner.U16 (s : scanner) : Except (Err × scanner) (Nat × scanner) :=
  (s.readExact 2).map fun p => (ordVal s.order p.1, p.2)

/-- `I16` from `scanner.go`. -/
def scanner.I16 (s : scanner) : Except (Err × scanner) (Int × scanner) :=
  (s.readExact 2).map fun p => (toSigned 2 (ordVal s.order p.1), p.2)

/-- `U32` from `scanner.go`. -/
def scanner.U32 (s : scanner) : Except (Err × scanner) (Nat × scanner) :=
  (s.readExact 4).map fun p => (ordVal s.order p.1, p.2)

/-- `I32` from `scanner.go`. -/
def scanner.I32 (s : scanner) : Except (Err × scanner) (Int × scanner) :=
  (s.readExact 4).map fun p => (toSigned 4 (ordVal s.order p.1), p.2)

/-- `U64` from `scanner.go`. -/
def scanner.U64 (s : scanner) : Except (Err × scanner) (Nat × scanner) :=
  (s.readExact 8).map fun p => (ordVal s.order p.1, p.2)

/-- `I64` from `scanner.go`. -/
def scanner.I64 (s : scanner) : Except (Err × scanner) (Int × scanner) :=
  (s.readExact 8).map fun p => (toSigned 8 (ordVal s.order p.1), p.2)

/-- `F32` from `scanner.go`: `math.Float32frombits(u)` is a pure bit
reinterpretation, so the raw 32-bit pattern is kept. -/
def scanner.F32 (s : scanner) : Except (Err × scanner) (Nat × scanner) :=
  s.U32

/-- `F64` from `scanner.go`: raw 64-bit pattern kept. -/
def scanner.F64 (s : scanner) : Except (Err × scanner) (Nat × scanner) :=
  s.U64

/-- `GGUFString` from `scanner.go`: an 8-byte unsigned length, checked against
the cap before any payload byte is read, then exactly that many bytes. -/
def scanner.GGUFString (s : scanner) (max : Nat) :
    Except (Err × scanner) (List Nat × scanner) :=
  match s.U64 with
  | .error es => .error es
  | .ok (n, s1) =>
    if n > max then .error (.stringTooLarge n max, s1)
    else s1.readExact n

/-- `Align` from `scanner.go`: consume padding up to the next multiple of `n`. -/
def scanner.Align (s : scanner) (n : Nat) : Except (Err × scanner) scanner :=
  if n = 0 then .ok s
  else if s.pos % n ≠ 0 then (s.readExact (n - s.pos % n)).map (fun p => p.2)
  else .ok s

/-- `Align8` from `scanner.go`. -/
def scanner.Align8 (s : scanner) : Except (Err × scanner) scanner :=
  s.Align 8

/-- GGUF type constant `tUint8` from `types.go`. -/
def tUint8 : Nat := 0
/-- GGUF type constant `tInt8` from `types.go`. -/
def tInt8 : Nat := 1
/-- GGUF type constant `tUint16` from `types.go`. -/
def tUint16 : Nat := 2
/-- GGUF type constant `tInt16` from `types.go`. -/
def tInt16 : Nat := 3
/-- GGUF type constant `tUint32` from `types.go`. -/
def tUint32 : Nat := 4
/-- GGUF type constant `tInt32` from `types.go`. -/
def tInt32 : Nat := 5
/-- GGUF type constant `tFloat32` from `types.go`. -/
def tFloat32 : Nat := 6
/-- GGUF type constant `tBool` from `types.go`. -/
def tBool : Nat := 7
/-- GGUF type constant `tString` from `types.go`. -/
def tString : Nat := 8
/-- GGUF type constant `tArray` from `types.go`. -/
def tArray : Nat := 9
/-- GGUF type constant `tUint64` from `types.go`. -/
def tUint64 : Nat := 10
/-- GGUF type constant `tInt64` from `types.go`. -/
def tInt64 : Nat := 11
/-- GGUF type constant `tFloat64` from `types.go`. -/
def tFloat64 : Nat := 12

/-- The magic literal `"GGUF"` from `types.go`, as bytes. -/
def magicGGUF : List Nat := [71, 71, 85, 70]

/-- `typeNames` from `types.go`. -/
def typeNames : List String :=
  ["uint8", "int8", "uint16", "int16", "uint32", "int32", "float32",
   "bool", "string", "array", "uint64", "int64", "float64"]

/-- `typeLabel` from the value-reading file. -/
def typeLabel (tag : Nat) (shape : String) : String :=
  if tag < typeNames.length then
    if shape = "" then typeNames.getD tag ""
    else typeNames.getD tag "" ++ shape
  else
    if shape = "" then "unknown(" ++ toString tag ++ ")"
    else "unknown(" ++ toString tag ++ ")" ++ shape

/-- Decoded GGUF values (Go passes them around as `any`).  Floats keep their
raw bit patterns.  `placeholder` is the `map[string]any` with
`_placeholder: "array"` built in `readArray`; `nestedPlaceholder` the one with
`_placeholder: "nested_array"` built in `readExpandedArray`.  `null` is the
zero `interface{}` used by the zero `kvEvent`. -/
inductive Value where
  | null
  | u8 (v : Nat)
  | i8 (v : Int)
  | u16 (v : Nat)
  | i16 (v : Int)
  | u32 (v : Nat)
  | i32 (v : Int)
  | u64 (v : Nat)
  | i64 (v : Int)
  | f32 (bits : Nat)
  | f64 (bits : Nat)
  | bool (b : Bool)
  | str (bytes : List Nat)
  | arr (elems : List Value)
  | placeholder (count : Nat) (elementType : String)
  | nestedPlaceholder (count : Nat) (elementType : String)
deriving Repr

/-- `policy` from `types.go`.  The Go `map[string]bool` becomes a membership
predicate (a missing key reads as `false` in Go); keys are raw byte strings. -/
structure policy where
  maxArray : Nat
  maxString : Nat
  debug : Bool
  expandArrays : List Nat → Bool
  expandPrefixes : List (List Nat)

/-- The `scalarDec` function type from the value-reading file. -/
def scalarDec : Type :=
  scanner → Except (Err × scanner) (Value × scanner)

/-- The `scalars` decoder table from the value-reading file: indexed by the
numeric tag, `none` at the `string` and `array` slots. -/
def scalars : List (Option scalarDec) :=
  [ some (fun s => (s.U8).map fun p => (Value.u8 p.1, p.2)),
    some (fun s => (s.I8).map fun p => (Value.i8 p.1, p.2)),
    some (fun s => (s.U16).map fun p => (Value.u16 p.1, p.2)),
    some (fun s => (s.I16).map fun p => (Value.i16 p.1, p.2)),
    some (fun s => (s.U32).map fun p => (Value.u32 p.1, p.2)),
    some (fun s => (s.I32).map fun p => (Value.i32 p.1, p.2)),
    some (fun s => (s.F32).map fun p => (Value.f32 p.1, p.2)),
    some (fun s => (s.U8).map fun p => (Value.bool (p.1 != 0), p.2)),
    none,
    none,
    some (fun s => (s.U64).map fun p => (Value.u64 p.1, p.2)),
    some (fun s => (s.I64).map fun p => (Value.i64 p.1, p.2)),
    some (fun s => (s.F64).map fun p => (Value.f64 p.1, p.2)) ]

/-- `readScalar` from the value-reading file: strings via `GGUFString` with
the configured cap, other tags via the `scalars` table, unknown tags fail
with `bad scalar tag` (UnknownType in the spec). -/
def readScalar (pol : policy) (tag : Nat) (s : scanner) :
    Except (Err × scanner) ((Value × String) × scanner) :=
  if tag = tString then
    match s.GGUFString pol.maxString with
    | .error es => .error es
    | .ok (str, s1) => .ok ((Value.str str, "string"), s1)
  else
    match scalars.getD tag none with
    | none => .error (.badScalarTag tag, s)
    | some dec =>
      match dec s with
      | .error es => .error es
      | .ok (v, s1) => .ok ((v, typeLabel tag ""), s1)

/-- The `for i := uint64(0); i < count; i++` loop shape shared by
`bulkSkipArrayElements`: run `step` `count` times, threading the scanner. -/
def iterSkip (step : scanner → Except (Err × scanner) scanner) :
    Nat → scanner → Except (Err × scanner) scanner
  | 0, s => .ok s
  | c + 1, s =>
    match step s with
    | .error es => .error es
    | .ok s1 => iterSkip step c s1

/-- Fuelled form of `bulkSkipArrayElements` from the value-reading file.  The
Go function recurses on nested arrays without a bound; each nesting level
consumes a 12-byte nested header, so the recursion depth never exceeds the
number of remaining bytes.  `fuel` makes the recursion structural; the
wrapper `bulkSkipArrayElements` supplies `s.data.length + 1`, which is never
exhausted (`skipF_no_fuelExhausted`), and the result does not depend on the
fuel as long as it exceeds the remaining length (`skipF_fuel_agree`). -/
def skipF (pol : policy) : Nat → Nat → Nat → scanner → Except (Err × scanner) scanner
  | 0, _elementType, _count, s => .error (.fuelExhausted, s)
  | fuel + 1, elementType, count, s =>
    if elementType = tArray then
      iterSkip (fun t =>
        match t.U32 with
        | .error es => .error es
        | .ok (nestedET, t1) =>
          match t1.U64 with
          | .error es => .error es
          | .ok (nestedN, t2) => skipF pol fuel nestedET nestedN t2) count s
    else
      iterSkip (fun t =>
        match readScalar pol elementType t with
        | .error es => .error es
        | .ok (_, t1) => .ok t1) count s

/-- `bulkSkipArrayElements` from the value-reading file: skip `count` elements
of type `elementType`, decoding and discarding scalars and recursing through
nested array headers. -/
def bulkSkipArrayElements (pol : policy) (elementType count : Nat) (s : scanner) :
    Except (Err × scanner) scanner :=
  skipF pol (s.data.length + 1) elementType count s

/-- The element loop of `readExpandedArray` from the value-reading file.  For
a nested array element the nested header is read, its payload bulk-skipped,
and a `nested_array` placeholder appended; `typeNames[nestedET]` is an
unguarded Go index and panics when `nestedET` is out of range
(`Err.indexPanic`).  Scalar elements are decoded via `readScalar` and
appended in order. -/
def readExpandedArrayLoop (pol : policy) (elementType : Nat) :
    Nat → scanner → Except (Err × scanner) (List Value × scanner)
  | 0, s => .ok ([], s)
  | c + 1, s =>
    if elementType = tArray then
      match s.U32 with
      | .error es => .error es
      | .ok (nestedET, s1) =>
        match s1.U64 with
        | .error es => .error es
        | .ok (nestedN, s2) =>
          match bulkSkipArrayElements pol nestedET nestedN s2 with
          | .error es => .error es
          | .ok s3 =>
            match typeNames.get? nestedET with
            | none => .error (.indexPanic nestedET, s3)
            | some nm =>
              match readExpandedArrayLoop pol elementType c s3 with
              | .error es => .error es
              | .ok (rest, s4) => .ok (Value.nestedPlaceholder nestedN nm :: rest, s4)
    else
      match readScalar pol elementType s with
      | .error es => .error es
      | .ok ((v, _), s1) =>
        match readExpandedArrayLoop pol elementType c s1 with
        | .error es => .error es
        | .ok (rest, s2) => .ok (v :: rest, s2)

/-- `readExpandedArray` from the value-reading file: the element loop plus the
`array[<elemName>]` label.  (the Go `make([]any, 0, safeCapFromCount(count))`
only pre-sizes the slice and does not affect the result.) -/
def readExpandedArray (pol : policy) (elementType count : Nat) (elemName : String)
    (s : scanner) : Except (Err × scanner) ((Value × String) × scanner) :=
  match readExpandedArrayLoop pol elementType count s with
  | .error es => .error es
  | .ok (elems, s1) => .ok ((Value.arr elems, "array[" ++ elemName ++ "]"), s1)

/-- The expand decision computed inside `readArray`: exact key in
`expandArrays`, else any entry of `expandPrefixes` that is a string prefix of
the key (`strings.HasPrefix`). -/
def shouldExpandKey (pol : policy) (key : List Nat) : Bool :=
  pol.expandArrays key || pol.expandPrefixes.any (fun pre => pre.isPrefixOf key)

/-- `readArray` from the value-reading file: read the array header
(element type `u32`, count `u64`), decide expansion per `shouldExpandKey`,
then either fully expand or bulk-skip and build the placeholder.  The Go
return is `(any, string, bool, error)`; the `bool` is the `omitted` flag. -/
def readArray (pol : policy) (key : List Nat) (s : scanner) :
    Except (Err × scanner) ((Value × String × Bool) × scanner) :=
  match s.U32 with
  | .error es => .error es
  | .ok (et, s1) =>
    match s1.U64 with
    | .error es => .error es
    | .ok (n, s2) =>
      let elemName := typeNames.getD et "unknown"
      if shouldExpandKey pol key then
        match readExpandedArray pol et n elemName s2 with
        | .error es => .error es
        | .ok ((v, lbl), s3) => .ok ((v, lbl, false), s3)
      else
        match bulkSkipArrayElements pol et n s2 with
        | .error es => .error es
        | .ok s3 =>
          .ok ((Value.placeholder n elemName, "array[" ++ elemName ++ "]", false), s3)

/-- `readValue` from the value-reading file.  The experimental
`alignBeforeValue` package-level variable is passed explicitly (off by
default); arrays dispatch to `readArray`, everything else to `readScalar`. -/
def readValue (alignBeforeValue : Bool) (pol : policy) (tag : Nat) (key : List Nat)
    (s : scanner) : Except (Err × scanner) ((Value × String × Bool) × scanner) :=
  match (if alignBeforeValue then s.Align8 else .ok s) with
  | .error es => .error es
  | .ok s0 =>
    if tag = tArray then readArray pol key s0
    else
      match readScalar pol tag s0 with
      | .error es => .error es
      | .ok ((v, typ), s1) => .ok ((v, typ, false), s1)

/-- `headerEvent` from `types.go` (the nested `gguf` struct is flattened). -/
structure headerEvent where
  kind : String
  version : Nat
  tensorCount : Nat
  kvCount : Nat
deriving DecidableEq, Repr

/-- `kvEvent` from `types.go`; the key keeps its raw bytes. -/
structure kvEvent where
  key : List Nat
  type : String
  value : Value
deriving Repr

/-- The zero `kvEvent` value returned by `nextKV` on exhaustion or omission. -/
def emptyKVEvent : kvEvent :=
  { key := [], type := "", value := Value.null }

/-- The `parser` struct from `parser.go`. -/
structure parser where
  scn : scanner
  fileSize : Nat
  endianHint : String
  kvRemain : Nat
  version : Nat
  tc : Nat
  kv : Nat
  pol : policy

/-- `newParser` from `parser.go`: read the 24-byte prologue, check the magic,
trial-decode the version field both ways to fix the byte order, then decode
`tensorCount` and `keyValueCount` in the chosen order.  Go leaves the
scanner order unset until this decision; no order-dependent read happens
before it, so the initial value is immaterial and `little` is used. -/
def newParser (data : List Nat) (size : Nat) (pol : policy) :
    Except (Err × scanner) (parser × headerEvent) :=
  let scn0 : scanner := { order := ByteOrder.little, data := data, pos := 0 }
  match scn0.readExact 24 with
  | .error es => .error es
  | .ok (headerBytes, scn1) =>
    if headerBytes.take 4 ≠ magicGGUF then
      .error (.badMagic (headerBytes.take 4), scn1)
    else
      let versionLE := leVal ((headerBytes.drop 4).take 4)
      let versionBE := beVal ((headerBytes.drop 4).take 4)
      let choice : Option (ByteOrder × String) :=
        if versionLE = 3 then some (ByteOrder.little, "LE")
        else if versionBE = 3 then some (ByteOrder.big, "BE")
        else none
      match choice with
      | none => .error (.unsupportedVersion versionLE versionBE, scn1)
      | some (o, hint) =>
        let tc := ordVal o ((headerBytes.drop 8).take 8)
        let kv := ordVal o ((headerBytes.drop 16).take 8)
        let p : parser :=
          { scn := { scn1 with order := o }, fileSize := size,
            endianHint := hint, kvRemain := kv, version := 3,
            tc := tc, kv := kv, pol := pol }
        let hdr : headerEvent :=
          { kind := "header", version := 3, tensorCount := tc, kvCount := kv }
        .ok (p, hdr)

/-- `nextKV` from `parser.go`: report no-more once `kvRemain` is 0 without
reading; otherwise decode key (string cap applies), 4-byte tag, and value,
and decrement `kvRemain` only after a fully successful decode.  (Go wraps
the tag/value errors with the key for context; the wrapping is dropped.) -/
def nextKV (alignBeforeValue : Bool) (p : parser) :
    Except (Err × parser) (kvEvent × Bool × parser) :=
  if p.kvRemain = 0 then .ok (emptyKVEvent, false, p)
  else
    match p.scn.GGUFString p.pol.maxString with
    | .error (e, serr) => .error (e, { p with scn := serr })
    | .ok (key, s1) =>
      match s1.U32 with
      | .error (e, serr) => .error (e, { p with scn := serr })
      | .ok (tag, s2) =>
        match readValue alignBeforeValue p.pol tag key s2 with
        | .error (e, serr) => .error (e, { p with scn := serr })
        | .ok ((val, typ, omitted), s3) =>
          let p1 := { p with scn := s3, kvRemain := p.kvRemain - 1 }
          if omitted then .ok (emptyKVEvent, true, p1)
          else .ok ({ key := key, type := typ, value := val }, true, p1)

/-- The record-consuming loop of `main.go`, counting how many records
(`hasMore = true` results) at most `steps` further `nextKV` calls produce;
the loop stops on an error or a no-more result. -/
def countRecords (alignBeforeValue : Bool) : Nat → parser → Nat
  | 0, _ => 0
  | steps + 1, p =>
    match nextKV alignBeforeValue p with
    | .error _ => 0
    | .ok (_, false, _) => 0
    | .ok (_, true, p1) => countRecords alignBeforeValue steps p1 + 1

/-- A policy with the CLI defaults and no explicit-expand rules, used by the
concrete witnesses. -/
def polNone : policy :=
  { maxArray := 32, maxString := 131072, debug := false,
    expandArrays := fun _ => false, expandPrefixes := [] }

/-- A one-record parser state used by the C7 witness: one key-value entry
(`"a"`, uint32 tag, value 42) remaining. -/
def pC7 : parser :=
  { scn := { order := ByteOrder.little,
             data := [0x01,0x00,0x00,0x00,0x00,0x00,0x00,0x00, 0x61, 0x04,0x00,0x00,0x00, 0x2a,0x00,0x00,0x00], pos := 24 },
    fileSize := 0, endianHint := "LE", kvRemain := 1, version := 3,
    tc := 1, kv := 1, pol := polNone }

/-- The parser state after consuming the single entry of `pC7`. -/
def pC7done : parser :=
  { pC7 with scn := { order := ByteOrder.little, data := [], pos := 41 },
             kvRemain := 0 }

/-- The scenario bytes of C8: prologue
`47 47 55 46 03 00 ... 01 00 ... 01 00 ...` followed by key `"a"`, tag 4
(uint32) and the 4-byte value 42. -/
def dataC8 : List Nat :=
  [0x47,0x47,0x55,0x46, 0x03,0x00,0x00,0x00,
   0x01,0x00,0x00,0x00,0x00,0x00,0x00,0x00,
   0x01,0x00,0x00,0x00,0x00,0x00,0x00,0x00,
   0x01,0x00,0x00,0x00,0x00,0x00,0x00,0x00, 0x61,
   0x04,0x00,0x00,0x00, 0x2a,0x00,0x00,0x00]

/-- The parser state produced by `newParser` on `dataC8`. -/
def pC8 : parser :=
  { scn := { order := ByteOrder.little,
             data := [0x01,0x00,0x00,0x00,0x00,0x00,0x00,0x00, 0x61, 0x04,0x00,0x00,0x00, 0x2a,0x00,0x00,0x00], pos := 24 },
    fileSize := 0, endianHint := "LE", kvRemain := 1, version := 3,
    tc := 1, kv := 1, pol := polNone }

/-! ### Elimination lemmas for the scanner primitives -/

/-- A successful `readExact` returns the first `n` bytes and advances `pos`
by exactly `n`. -/
theorem scanner.readExact_ok {s : scanner} {n : Nat} {bs : List Nat} {s1 : scanner}
    (h : s.readExact n = .ok (bs, s1)) :
    n ≤ s.data.length ∧ bs = s.data.take n ∧
      s1 = { s with data := s.data.drop n, pos := s.pos + n } := by
  unfold scanner.readExact at h
  split at h
  · simp only [Except.ok.injEq, Prod.mk.injEq] at h
    exact ⟨by assumption, h.1.symm, h.2.symm⟩
  · exact absurd h (by simp)

/-- A failed `readExact` leaves `pos` unchanged. -/
theorem scanner.readExact_err {s : scanner} {n : Nat} {e : Err} {s1 : scanner}
    (h : s.readExact n = .error (e, s1)) :
    e = .shortRead ∧ s1 = { s with data := [] } := by
  unfold scanner.readExact at h
  split at h
  · exact absurd h (by simp)
  · simp only [Except.error.injEq, Prod.mk.injEq] at h
    exact ⟨h.1.symm, h.2.symm⟩

/-- Elimination for the `(s.readExact w).map (fun p => (f p.1, p.2))` shape
shared by every typed reader. -/
theorem mapped_readExact_ok {γ : Type} {f : List Nat → γ} {w : Nat} {s : scanner}
    {v : γ} {s1 : scanner}
    (h : ((s.readExact w).map fun p => (f p.1, p.2)) = .ok (v, s1)) :
    v = f (s.data.take w) ∧
      s1 = { s with data := s.data.drop w, pos := s.pos + w } ∧
      w ≤ s.data.length := by
  cases hre : s.readExact w with
  | error es => rw [hre] at h; cases h
  | ok p =>
    rw [hre] at h
    obtain ⟨hw, hbs, hs1⟩ := scanner.readExact_ok hre
    simp only [Except.map, Except.ok.injEq, Prod.mk.injEq] at h
    refine ⟨?_, ?_, hw⟩
    · rw [← h.1, hbs]
    · rw [← h.2, hs1]

/-- Elimination for a successful `U8`. -/
theorem scanner.U8_ok {s : scanner} {v : Nat} {s1 : scanner}
    (h : s.U8 = .ok (v, s1)) :
    v = (s.data.take 1).headD 0 ∧
      s1 = { s with data := s.data.drop 1, pos := s.pos + 1 } ∧ 1 ≤ s.data.length :=
  mapped_readExact_ok (f := fun bs => bs.headD 0) h

/-- Elimination for a successful `I8`. -/
theorem scanner.I8_ok {s : scanner} {v : Int} {s1 : scanner}
    (h : s.I8 = .ok (v, s1)) :
    v = toSigned 1 ((s.data.take 1).headD 0) ∧
      s1 = { s with data := s.data.drop 1, pos := s.pos + 1 } ∧ 1 ≤ s.data.length :=
  mapped_readExact_ok (f := fun bs => toSigned 1 (bs.headD 0)) h

/-- Elimination for a successful `U16`. -/
theorem scanner.U16_ok {s : scanner} {v : Nat} {s1 : scanner}
    (h : s.U16 = .ok (v, s1)) :
    v = ordVal s.order (s.data.take 2) ∧
      s1 = { s with data := s.data.drop 2, pos := s.pos + 2 } ∧ 2 ≤ s.data.length :=
  mapped_readExact_ok h

/-- Elimination for a successful `I16`. -/
theorem scanner.I16_ok {s : scanner} {v : Int} {s1 : scanner}
    (h : s.I16 = .ok (v, s1)) :
    v = toSigned 2 (ordVal s.order (s.data.take 2)) ∧
      s1 = { s with data := s.data.drop 2, pos := s.pos + 2 } ∧ 2 ≤ s.data.length :=
  mapped_readExact_ok (f := fun bs => toSigned 2 (ordVal s.order bs)) h

/-- Elimination for a successful `U32`. -/
theorem scanner.U32_ok {s : scanner} {v : Nat} {s1 : scanner}
    (h : s.U32 = .ok (v, s1)) :
    v = ordVal s.order (s.data.take 4) ∧
      s1 = { s with data := s.data.drop 4, pos := s.pos + 4 } ∧ 4 ≤ s.data.length :=
  mapped_readExact_ok h

/-- Elimination for a successful `I32`. -/
theorem scanner.I32_ok {s : scanner} {v : Int} {s1 : scanner}
    (h : s.I32 = .ok (v, s1)) :
    v = toSigned 4 (ordVal s.order (s.data.take 4)) ∧
      s1 = { s with data := s.data.drop 4, pos := s.pos + 4 } ∧ 4 ≤ s.data.length :=
  mapped_readExact_ok (f := fun bs => toSigned 4 (ordVal s.order bs)) h

/-- Elimination for a successful `U64`. -/
theorem scanner.U64_ok {s : scanner} {v : Nat} {s1 : scanner}
    (h : s.U64 = .ok (v, s1)) :
    v = ordVal s.order (s.data.take 8) ∧
      s1 = { s with data := s.data.drop 8, pos := s.pos + 8 } ∧ 8 ≤ s.data.length :=
  mapped_readExact_ok h

/-- Elimination for a successful `I64`. -/
theorem scanner.I64_ok {s : scanner} {v : Int} {s1 : scanner}
    (h : s.I64 = .ok (v, s1)) :
    v = toSigned 8 (ordVal s.order (s.data.take 8)) ∧
      s1 = { s with data := s.data.drop 8, pos := s.pos + 8 } ∧ 8 ≤ s.data.length :=
  mapped_readExact_ok (f := fun bs => toSigned 8 (ordVal s.order bs)) h

/-- Elimination for a successful `GGUFString`: the 8-byte length is read
first, checked against the cap, and exactly `n` payload bytes follow. -/
theorem scanner.GGUFString_ok {s : scanner} {max : Nat} {bs : List Nat} {s1 : scanner}
    (h : s.GGUFString max = .ok (bs, s1)) :
    ∃ n sA, s.U64 = .ok (n, sA) ∧ n ≤ max ∧ sA.readExact n = .ok (bs, s1) := by
  unfold scanner.GGUFString at h
  cases hu : s.U64 with
  | error es => rw [hu] at h; cases h
  | ok p =>
    obtain ⟨n, sA⟩ := p
    rw [hu] at h
    dsimp only at h
    by_cases hc : n > max
    · rw [if_pos hc] at h; cases h
    · rw [if_neg hc] at h
      exact ⟨n, sA, rfl, by omega, h⟩

/-- Elimination for a successful `Except.map`. -/
theorem except_map_ok {ε α β : Type} {f : α → β} {e : Except ε α} {b : β}
    (h : e.map f = .ok b) : ∃ a, e = .ok a ∧ b = f a := by
  cases e with
  | error x => cases h
  | ok a =>
    refine ⟨a, rfl, ?_⟩
    simpa [Except.map] using h.symm

/-- Every decoder in the `scalars` table strictly consumes input on success. -/
theorem scalars_ok_len :
    ∀ o ∈ scalars, ∀ dec : scalarDec, o = some dec →
      ∀ (s : scanner) (v : Value) (s1 : scanner),
        dec s = .ok (v, s1) → s1.data.length < s.data.length := by
  intro o ho
  fin_cases ho <;>
    · intro dec hdec s v s1 hd
      first
      | exact Option.noConfusion hdec
      | · injection hdec with h1
          subst h1
          obtain ⟨q, hq, hb⟩ := except_map_ok hd
          obtain ⟨q2, hq2, hb2⟩ := except_map_ok hq
          obtain ⟨hw, hbs, hadv⟩ := scanner.readExact_ok hq2
          have e1 : s1 = q.2 := congrArg Prod.snd hb
          have e2 : q.2 = q2.2 := congrArg Prod.snd hb2
          rw [e1, e2, hadv]
          simp only [List.length_drop]
          omega

/-- A successful `readScalar` strictly consumes input: every scalar tag reads
at least one byte (a string reads its 8-byte length first). -/
theorem readScalar_ok_len {pol : policy} {tag : Nat} {s : scanner} {v : Value}
    {lbl : String} {s1 : scanner}
    (h : readScalar pol tag s = .ok ((v, lbl), s1)) :
    s1.data.length < s.data.length := by
  unfold readScalar at h
  split at h
  · cases hgs : s.GGUFString pol.maxString with
    | error es => rw [hgs] at h; cases h
    | ok p =>
      obtain ⟨bs, sB⟩ := p
      rw [hgs] at h
      dsimp only at h
      simp only [Except.ok.injEq, Prod.mk.injEq] at h
      obtain ⟨n, sA, hu, hle, hre⟩ := scanner.GGUFString_ok hgs
      obtain ⟨-, hsA, hlenA⟩ := scanner.U64_ok hu
      obtain ⟨hw, -, hsB⟩ := scanner.readExact_ok hre
      have e1 : s1 = sB := h.2.symm
      rw [e1, hsB]
      simp only [List.length_drop]
      rw [hsA] at hw ⊢
      simp only [List.length_drop] at hw ⊢
      omega
  · split at h
    · exact absurd h (by simp)
    · rename_i dec heq
      cases hd : dec s with
      | error es => rw [hd] at h; cases h
      | ok p =>
        obtain ⟨v0, sB⟩ := p
        rw [hd] at h
        dsimp only at h
        simp only [Except.ok.injEq, Prod.mk.injEq] at h
        have htag : tag < scalars.length := by
          by_contra hh
          push_neg at hh
          rw [List.getD_eq_default _ _ hh] at heq
          cases heq
        have hmem : scalars.getD tag none ∈ scalars := by
          rw [List.getD_eq_getElem _ _ htag]
          exact List.getElem_mem _
        have := scalars_ok_len _ hmem dec heq s v0 sB hd
        have e1 : s1 = sB := h.2.symm
        rw [e1]
        exact this

/-- `iterSkip` preserves a non-increasing data length. -/
theorem iterSkip_ok_len {step : scanner → Except (Err × scanner) scanner}
    (hstep : ∀ t r, step t = .ok r → r.data.length ≤ t.data.length) :
    ∀ (n : Nat) (s s1 : scanner),
      iterSkip step n s = .ok s1 → s1.data.length ≤ s.data.length := by
  intro n
  induction n with
  | zero =>
    intro s s1 h
    simp only [iterSkip] at h
    injection h with h1
    rw [← h1]
  | succ c ih =>
    intro s s1 h
    simp only [iterSkip] at h
    cases hs : step s with
    | error es => rw [hs] at h; cases h
    | ok sA =>
      rw [hs] at h
      exact le_trans (ih sA s1 h) (hstep s sA hs)

/-- Two `iterSkip` loops agree when their steps agree on every state whose
remaining length is at most `L` and the first step never grows the data. -/
theorem iterSkip_congr {step1 step2 : scanner → Except (Err × scanner) scanner} {L : Nat}
    (hlen : ∀ t r, step1 t = .ok r → r.data.length ≤ t.data.length)
    (hagree : ∀ t, t.data.length ≤ L → step1 t = step2 t) :
    ∀ (n : Nat) (s : scanner), s.data.length ≤ L →
      iterSkip step1 n s = iterSkip step2 n s := by
  intro n
  induction n with
  | zero => intro s _; rfl
  | succ c ih =>
    intro s hs
    simp only [iterSkip]
    rw [← hagree s hs]
    cases hstep : step1 s with
    | error es => rfl
    | ok sA => exact ih sA (le_trans (hlen s sA hstep) hs)

/-- A successful `skipF` never grows the remaining data. -/
theorem skipF_ok_len {pol : policy} : ∀ (f et n : Nat) (s s1 : scanner),
    skipF pol f et n s = .ok s1 → s1.data.length ≤ s.data.length := by
  intro f
  induction f with
  | zero => intro et n s s1 h; simp [skipF] at h
  | succ g ih =>
    intro et n s s1 h
    simp only [skipF] at h
    split at h
    · refine iterSkip_ok_len ?_ n s s1 h
      intro t r hstep
      cases hu : t.U32 with
      | error es => rw [hu] at hstep; cases hstep
      | ok p =>
        obtain ⟨nET, t1⟩ := p
        rw [hu] at hstep
        dsimp only at hstep
        cases hv : t1.U64 with
        | error es => rw [hv] at hstep; cases hstep
        | ok q =>
          obtain ⟨nN, t2⟩ := q
          rw [hv] at hstep
          dsimp only at hstep
          have h2 := ih nET nN t2 r hstep
          obtain ⟨-, ht1, -⟩ := scanner.U32_ok hu
          obtain ⟨-, ht2, -⟩ := scanner.U64_ok hv
          rw [ht2, ht1] at h2
          simp only [List.length_drop] at h2
          omega
    · refine iterSkip_ok_len ?_ n s s1 h
      intro t r hstep
      cases hrs : readScalar pol _ t with
      | error es => rw [hrs] at hstep; cases hstep
      | ok p =>
        obtain ⟨vl, t1⟩ := p
        rw [hrs] at hstep
        dsimp only at hstep
        injection hstep with h1
        obtain ⟨vv, ll⟩ := vl
        rw [← h1]
        exact le_of_lt (readScalar_ok_len hrs)

/-- The nested-array step of `skipF` never grows the remaining data. -/
theorem skipF_nested_step_len {pol : policy} {g : Nat} :
    ∀ t r : scanner,
      (match t.U32 with
       | Except.error es => (Except.error es : Except (Err × scanner) scanner)
       | Except.ok (nestedET, t1) =>
         match t1.U64 with
         | Except.error es => Except.error es
         | Except.ok (nestedN, t2) => skipF pol g nestedET nestedN t2) = Except.ok r →
      r.data.length ≤ t.data.length := by
  intro t r hstep
  cases hu : t.U32 with
  | error es => rw [hu] at hstep; cases hstep
  | ok p =>
    obtain ⟨nET, t1⟩ := p
    rw [hu] at hstep
    dsimp only at hstep
    cases hv : t1.U64 with
    | error es => rw [hv] at hstep; cases hstep
    | ok q =>
      obtain ⟨nN, t2⟩ := q
      rw [hv] at hstep
      dsimp only at hstep
      have h2 := skipF_ok_len g nET nN t2 r hstep
      obtain ⟨-, ht1, -⟩ := scanner.U32_ok hu
      obtain ⟨-, ht2, -⟩ := scanner.U64_ok hv
      rw [ht2, ht1] at h2
      simp only [List.length_drop] at h2
      omega

/-- The result of `skipF` does not depend on the fuel once the fuel exceeds
the remaining data length (each nesting level consumes a 12-byte header). -/
theorem skipF_fuel_agree {pol : policy} : ∀ (L f1 f2 et n : Nat) (s : scanner),
    s.data.length ≤ L → L < f1 → L < f2 →
    skipF pol f1 et n s = skipF pol f2 et n s := by
  intro L
  induction L with
  | zero =>
    intro f1 f2 et n s hs h1 h2
    obtain ⟨a, rfl⟩ : ∃ a, f1 = a + 1 := ⟨f1 - 1, by omega⟩
    obtain ⟨b, rfl⟩ : ∃ b, f2 = b + 1 := ⟨f2 - 1, by omega⟩
    simp only [skipF]
    by_cases hA : et = tArray
    · simp only [if_pos hA]
      refine iterSkip_congr skipF_nested_step_len ?_ n s hs
      intro t ht
      cases hu : t.U32 with
      | error es => simp only [hu]
      | ok p =>
        obtain ⟨nET, t1⟩ := p
        obtain ⟨-, -, hw⟩ := scanner.U32_ok hu
        exfalso
        omega
    · simp only [if_neg hA]
  | succ M ih =>
    intro f1 f2 et n s hs h1 h2
    obtain ⟨a, rfl⟩ : ∃ a, f1 = a + 1 := ⟨f1 - 1, by omega⟩
    obtain ⟨b, rfl⟩ : ∃ b, f2 = b + 1 := ⟨f2 - 1, by omega⟩
    simp only [skipF]
    by_cases hA : et = tArray
    · simp only [if_pos hA]
      refine iterSkip_congr skipF_nested_step_len ?_ n s hs
      intro t ht
      cases hu : t.U32 with
      | error es => simp only [hu]
      | ok p =>
        obtain ⟨nET, t1⟩ := p
        simp only [hu]
        cases hv : t1.U64 with
        | error es => simp only [hv]
        | ok q =>
          obtain ⟨nN, t2⟩ := q
          simp only [hv]
          obtain ⟨-, ht1, hw1⟩ := scanner.U32_ok hu
          obtain ⟨-, ht2, hw2⟩ := scanner.U64_ok hv
          refine ih a b nET nN t2 ?_ (by omega) (by omega)
          rw [ht2, ht1]
          simp only [List.length_drop]
          rw [ht1] at hw2
          simp only [List.length_drop] at hw2
          omega
    · simp only [if_neg hA]

/-- `bulkSkipArrayElements` equals `skipF` at any adequate fuel. -/
theorem bulkSkip_eq_skipF {pol : policy} {et n : Nat} {s : scanner} {f : Nat}
    (hf : s.data.length < f) :
    bulkSkipArrayElements pol et n s = skipF pol f et n s := by
  unfold bulkSkipArrayElements
  exact skipF_fuel_agree s.data.length (s.data.length + 1) f et n s le_rfl
    (by omega) hf

/-- If the expand loop of `readExpandedArray` succeeds, the bulk skip of the
same bytes succeeds and leaves the scanner in exactly the same state: both
paths perform the same sequence of reads. -/
theorem expandLoop_to_skip {pol : policy} {et : Nat} :
    ∀ (n : Nat) (s : scanner) (vs : List Value) (t : scanner),
      readExpandedArrayLoop pol et n s = .ok (vs, t) →
      ∀ f, s.data.length < f → skipF pol f et n s = .ok t := by
  intro n
  induction n with
  | zero =>
    intro s vs t h f hf
    simp only [readExpandedArrayLoop] at h
    injection h with h1
    have ht : t = s := (congrArg Prod.snd h1).symm
    subst ht
    obtain ⟨a, rfl⟩ : ∃ a, f = a + 1 := ⟨f - 1, by omega⟩
    simp only [skipF]
    split <;> simp [iterSkip]
  | succ c ih =>
    intro s vs t h f hf
    obtain ⟨a, rfl⟩ : ∃ a, f = a + 1 := ⟨f - 1, by omega⟩
    simp only [readExpandedArrayLoop] at h
    by_cases hA : et = tArray
    · rw [if_pos hA] at h
      cases hu : s.U32 with
      | error es => rw [hu] at h; cases h
      | ok p =>
        obtain ⟨nET, s1⟩ := p
        rw [hu] at h
        dsimp only at h
        cases hv : s1.U64 with
        | error es => rw [hv] at h; cases h
        | ok q =>
          obtain ⟨nN, s2⟩ := q
          rw [hv] at h
          dsimp only at h
          cases hsk : bulkSkipArrayElements pol nET nN s2 with
          | error es => rw [hsk] at h; cases h
          | ok s3 =>
            rw [hsk] at h
            dsimp only at h
            cases hget : typeNames.get? nET with
            | none => rw [hget] at h; cases h
            | some nm =>
              rw [hget] at h
              dsimp only at h
              cases hrec : readExpandedArrayLoop pol et c s3 with
              | error es => rw [hrec] at h; cases h
              | ok pr =>
                obtain ⟨rest, s4⟩ := pr
                rw [hrec] at h
                dsimp only at h
                have ht : t = s4 := by
                  injection h with h1
                  exact (congrArg Prod.snd h1).symm
                subst ht
                obtain ⟨-, hs1, hw1⟩ := scanner.U32_ok hu
                obtain ⟨-, hs2, hw2⟩ := scanner.U64_ok hv
                have e2 : s2.data.length + 12 ≤ s.data.length := by
                  rw [hs2, hs1]
                  rw [hs1] at hw2
                  simp only [List.length_drop] at hw2 ⊢
                  omega
                have hlen2 : s2.data.length < a := by omega
                have hnest : skipF pol a nET nN s2 = .ok s3 := by
                  rw [← bulkSkip_eq_skipF hlen2]
                  exact hsk
                have hs3len : s3.data.length ≤ s2.data.length :=
                  skipF_ok_len a nET nN s2 s3 hnest
                have htail := ih s3 rest t hrec (a + 1) (by omega)
                simp only [skipF, if_pos hA] at htail ⊢
                simp only [iterSkip, hu, hv, hnest]
                exact htail
    · rw [if_neg hA] at h
      cases hrs : readScalar pol et s with
      | error es => rw [hrs] at h; cases h
      | ok p =>
        obtain ⟨vl, s1⟩ := p
        obtain ⟨v0, l0⟩ := vl
        rw [hrs] at h
        dsimp only at h
        cases hrec : readExpandedArrayLoop pol et c s1 with
        | error es => rw [hrec] at h; cases h
        | ok pr =>
          obtain ⟨rest, s2⟩ := pr
          rw [hrec] at h
          dsimp only at h
          have ht : t = s2 := by
            injection h with h1
            exact (congrArg Prod.snd h1).symm
          subst ht
          have hlt := readScalar_ok_len hrs
          have htail := ih s1 rest t hrec (a + 1) (by omega)
          simp only [skipF, if_neg hA] at htail ⊢
          simp only [iterSkip, hrs]
          exact htail

/-- If `readExpandedArray` succeeds, `bulkSkipArrayElements` on the same bytes
succeeds with exactly the same final scanner. -/
theorem expand_to_skip {pol : policy} {et n : Nat} {nm : String} {s : scanner}
    {v : Value} {lbl : String} {t : scanner}
    (h : readExpandedArray pol et n nm s = .ok ((v, lbl), t)) :
    bulkSkipArrayElements pol et n s = .ok t := by
  unfold readExpandedArray at h
  cases hl : readExpandedArrayLoop pol et n s with
  | error es => rw [hl] at h; cases h
  | ok p =>
    obtain ⟨elems, sE⟩ := p
    rw [hl] at h
    dsimp only at h
    have ht : t = sE := by
      injection h with h1
      exact (congrArg Prod.snd h1).symm
    subst ht
    unfold bulkSkipArrayElements
    exact expandLoop_to_skip n s elems t hl (s.data.length + 1) (by omega)

/-- C1.  For an array key matching no explicit-expand rule, `readArray` takes
the placeholder branch: whenever the bulk skip succeeds it returns a
placeholder whose reported count is exactly the count `n` read from the array
header, ending in the final scanner state of the skip; and whenever full expansion
of the same bytes succeeds, the bulk skip succeeds with the identical final
scanner — skip and expand consume the same byte span. -/
theorem readArray_placeholder_skip_expand_agree
    (pol : policy) (key : List Nat) (s : scanner) (et : Nat) (s1 : scanner)
    (n : Nat) (s2 : scanner)
    (hexp : shouldExpandKey pol key = false)
    (hu : s.U32 = .ok (et, s1)) (hv : s1.U64 = .ok (n, s2)) :
    (∀ s3, bulkSkipArrayElements pol et n s2 = .ok s3 →
        readArray pol key s =
          .ok ((Value.placeholder n (typeNames.getD et "unknown"),
                "array[" ++ typeNames.getD et "unknown" ++ "]", false), s3)) ∧
    (∀ (v : Value) (lbl : String) (t : scanner),
        readExpandedArray pol et n (typeNames.getD et "unknown") s2 = .ok ((v, lbl), t) →
        bulkSkipArrayElements pol et n s2 = .ok t) := by
  constructor
  · intro s3 hsk
    unfold readArray
    rw [hu]
    dsimp only
    rw [hv]
    dsimp only
    simp only [hexp, Bool.false_eq_true, if_false]
    rw [hsk]
  · intro v lbl t hx
    exact expand_to_skip hx

/-- Witness for C1: key `"x"`, a `uint8` array of count 2 with payload
`[7, 8]`; the placeholder reports count 2 and the skip ends at position 14,
exactly where expansion of the same bytes ends. -/
theorem readArray_placeholder_skip_expand_agree_witness :
    readArray polNone [120]
        { order := ByteOrder.little, data := [0,0,0,0, 2,0,0,0,0,0,0,0, 7,8], pos := 0 } =
      .ok ((Value.placeholder 2 "uint8", "array[uint8]", false),
           { order := ByteOrder.little, data := [], pos := 14 }) ∧
    bulkSkipArrayElements polNone 0 2
        { order := ByteOrder.little, data := [7,8], pos := 12 } =
      .ok { order := ByteOrder.little, data := [], pos := 14 } :=
  ⟨(readArray_placeholder_skip_expand_agree polNone [120]
      { order := ByteOrder.little, data := [0,0,0,0, 2,0,0,0,0,0,0,0, 7,8], pos := 0 }
      0 { order := ByteOrder.little, data := [2,0,0,0,0,0,0,0, 7,8], pos := 4 }
      2 { order := ByteOrder.little, data := [7,8], pos := 12 }
      rfl rfl rfl).1
      { order := ByteOrder.little, data := [], pos := 14 } rfl,
   (readArray_placeholder_skip_expand_agree polNone [120]
      { order := ByteOrder.little, data := [0,0,0,0, 2,0,0,0,0,0,0,0, 7,8], pos := 0 }
      0 { order := ByteOrder.little, data := [2,0,0,0,0,0,0,0, 7,8], pos := 4 }
      2 { order := ByteOrder.little, data := [7,8], pos := 12 }
      rfl rfl rfl).2
      (Value.arr [Value.u8 7, Value.u8 8]) "array[uint8]"
      { order := ByteOrder.little, data := [], pos := 14 } rfl⟩

/-- C2 (amended).  For an array whose element type tag lies outside the 13
known kinds and whose element count is at least 1, `readArray` aborts with
the `bad scalar tag` (UnknownType) error in both the placeholder branch and
the explicit-expand branch, with no partial-element recovery: the first
element decode fails before anything is produced. -/
theorem readArray_unknown_tag_aborts
    (pol : policy) (key : List Nat) (s : scanner) (et : Nat) (s1 : scanner)
    (n : Nat) (s2 : scanner)
    (hu : s.U32 = .ok (et, s1)) (hv : s1.U64 = .ok (n + 1, s2))
    (htag : typeNames.length ≤ et) :
    readArray pol key s = .error (.badScalarTag et, s2) := by
  have hTN : typeNames.length = 13 := rfl
  have h13 : 13 ≤ et := hTN ▸ htag
  have h9 : et ≠ tArray := by unfold tArray; omega
  have h8 : et ≠ tString := by unfold tString; omega
  have hget : scalars.getD et none = none :=
    List.getD_eq_default _ _ (by have hsl : scalars.length = 13 := rfl; omega)
  have hscal : readScalar pol et s2 = .error (.badScalarTag et, s2) := by
    unfold readScalar
    rw [if_neg h8, hget]
  unfold readArray
  rw [hu]
  dsimp only
  rw [hv]
  dsimp only
  cases hexp : shouldExpandKey pol key with
  | true =>
    simp only [if_true]
    simp only [readExpandedArray, readExpandedArrayLoop]
    rw [if_neg h9, hscal]
  | false =>
    simp only [Bool.false_eq_true, if_false]
    unfold bulkSkipArrayElements
    simp only [skipF]
    rw [if_neg h9]
    simp only [iterSkip]
    rw [hscal]

/-- C2 counterexample.  The claim asserts an UnknownType abort "for every
element count including 0", but with element count 0 the decode never
examines the element type: for the unknown tag 13 with count 0 under the
default (placeholder) policy, `readArray` succeeds and silently substitutes
the element type name "unknown" instead of returning an error. -/
theorem readArray_unknown_tag_count_zero_succeeds :
    readArray polNone [120]
        { order := ByteOrder.little, data := [13,0,0,0, 0,0,0,0,0,0,0,0], pos := 0 } =
      .ok ((Value.placeholder 0 "unknown", "array[unknown]", false),
           { order := ByteOrder.little, data := [], pos := 12 }) := rfl

/-- Witness for the amended C2: unknown tag 13 with count 1 aborts with the
`bad scalar tag` error at the position just after the array header. -/
theorem readArray_unknown_tag_aborts_witness :
    readArray polNone [120]
        { order := ByteOrder.little, data := [13,0,0,0, 1,0,0,0,0,0,0,0, 5], pos := 0 } =
      .error (.badScalarTag 13,
              { order := ByteOrder.little, data := [5], pos := 12 }) :=
  readArray_unknown_tag_aborts polNone [120]
    { order := ByteOrder.little, data := [13,0,0,0, 1,0,0,0,0,0,0,0, 5], pos := 0 }
    13 { order := ByteOrder.little, data := [1,0,0,0,0,0,0,0, 5], pos := 4 }
    0 { order := ByteOrder.little, data := [5], pos := 12 }
    rfl rfl (by decide)

/-- C3.  The expand/placeholder decision in `readArray` follows strict
precedence: an exact hit in `expandArrays` expands; otherwise a prefix hit
in `expandPrefixes` expands; otherwise the placeholder is produced — for
every element count `n`, and the size threshold `maxArray` is never consulted
(changing it cannot reverse the decision). -/
theorem readArray_expand_precedence
    (pol : policy) (key : List Nat) (s : scanner) (et : Nat) (s1 : scanner)
    (n : Nat) (s2 : scanner)
    (hu : s.U32 = .ok (et, s1)) (hv : s1.U64 = .ok (n, s2)) :
    (pol.expandArrays key = true →
      readArray pol key s =
        (readExpandedArray pol et n (typeNames.getD et "unknown") s2).map
          (fun q => ((q.1.1, q.1.2, false), q.2))) ∧
    (pol.expandPrefixes.any (fun pre => pre.isPrefixOf key) = true →
      readArray pol key s =
        (readExpandedArray pol et n (typeNames.getD et "unknown") s2).map
          (fun q => ((q.1.1, q.1.2, false), q.2))) ∧
    (pol.expandArrays key = false →
      pol.expandPrefixes.any (fun pre => pre.isPrefixOf key) = false →
      readArray pol key s =
        (bulkSkipArrayElements pol et n s2).map
          (fun s3 => ((Value.placeholder n (typeNames.getD et "unknown"),
                       "array[" ++ typeNames.getD et "unknown" ++ "]", false), s3))) ∧
    (∀ m : Nat, shouldExpandKey { pol with maxArray := m } key = shouldExpandKey pol key) := by
  refine ⟨?_, ?_, ?_, fun m => rfl⟩
  · intro hkey
    unfold readArray
    rw [hu]
    dsimp only
    rw [hv]
    dsimp only
    have hse : shouldExpandKey pol key = true := by
      simp [shouldExpandKey, hkey]
    simp only [hse, if_true]
    cases hres : readExpandedArray pol et n (typeNames.getD et "unknown") s2 with
    | error es => simp [hres, Except.map]
    | ok q =>
      obtain ⟨⟨v, lbl⟩, s3⟩ := q
      simp [hres, Except.map]
  · intro hpre
    unfold readArray
    rw [hu]
    dsimp only
    rw [hv]
    dsimp only
    have hse : shouldExpandKey pol key = true := by
      simp [shouldExpandKey, hpre]
    simp only [hse, if_true]
    cases hres : readExpandedArray pol et n (typeNames.getD et "unknown") s2 with
    | error es => simp [hres, Except.map]
    | ok q =>
      obtain ⟨⟨v, lbl⟩, s3⟩ := q
      simp [hres, Except.map]
  · intro hkey hpre
    unfold readArray
    rw [hu]
    dsimp only
    rw [hv]
    dsimp only
    have hse : shouldExpandKey pol key = false := by
      simp [shouldExpandKey, hkey, hpre]
    simp only [hse, Bool.false_eq_true, if_false]
    cases hres : bulkSkipArrayElements pol et n s2 with
    | error es => simp [hres, Except.map]
    | ok s3 => simp [hres, Except.map]

/-- Witness for C3: with key `"x"` in `expandArrays` the array is expanded;
with a non-matching key under the same bytes the placeholder is produced. -/
theorem readArray_expand_precedence_witness :
    readArray { polNone with expandArrays := fun k => k == [120] } [120]
        { order := ByteOrder.little, data := [0,0,0,0, 1,0,0,0,0,0,0,0, 7], pos := 0 } =
      .ok ((Value.arr [Value.u8 7], "array[uint8]", false),
           { order := ByteOrder.little, data := [], pos := 13 }) ∧
    readArray polNone [121]
        { order := ByteOrder.little, data := [0,0,0,0, 1,0,0,0,0,0,0,0, 7], pos := 0 } =
      .ok ((Value.placeholder 1 "uint8", "array[uint8]", false),
           { order := ByteOrder.little, data := [], pos := 13 }) :=
  ⟨((readArray_expand_precedence
      { polNone with expandArrays := fun k => k == [120] } [120]
      { order := ByteOrder.little, data := [0,0,0,0, 1,0,0,0,0,0,0,0, 7], pos := 0 }
      0 { order := ByteOrder.little, data := [1,0,0,0,0,0,0,0, 7], pos := 4 }
      1 { order := ByteOrder.little, data := [7], pos := 12 }
      rfl rfl).1 rfl).trans rfl,
   ((readArray_expand_precedence polNone [121]
      { order := ByteOrder.little, data := [0,0,0,0, 1,0,0,0,0,0,0,0, 7], pos := 0 }
      0 { order := ByteOrder.little, data := [1,0,0,0,0,0,0,0, 7], pos := 4 }
      1 { order := ByteOrder.little, data := [7], pos := 12 }
      rfl rfl).2.2.1 rfl rfl).trans rfl⟩

/-- Every element produced by the expand loop for array-of-array elements is
a `nested_array` placeholder. -/
theorem expandLoop_nested_all_placeholders {pol : policy} :
    ∀ (n : Nat) (s : scanner) (vs : List Value) (t : scanner),
      readExpandedArrayLoop pol tArray n s = .ok (vs, t) →
      ∀ e ∈ vs, ∃ c tn, e = Value.nestedPlaceholder c tn := by
  intro n
  induction n with
  | zero =>
    intro s vs t h e he
    simp only [readExpandedArrayLoop] at h
    injection h with h1
    have hvs : vs = [] := (congrArg Prod.fst h1).symm
    subst hvs
    cases he
  | succ c ih =>
    intro s vs t h e he
    simp only [readExpandedArrayLoop, if_pos rfl] at h
    cases hu : s.U32 with
    | error es => rw [hu] at h; cases h
    | ok p =>
      obtain ⟨nET, s1⟩ := p
      rw [hu] at h
      dsimp only at h
      cases hv : s1.U64 with
      | error es => rw [hv] at h; cases h
      | ok q =>
        obtain ⟨nN, s2⟩ := q
        rw [hv] at h
        dsimp only at h
        cases hsk : bulkSkipArrayElements pol nET nN s2 with
        | error es => rw [hsk] at h; cases h
        | ok s3 =>
          rw [hsk] at h
          dsimp only at h
          cases hget : typeNames.get? nET with
          | none => rw [hget] at h; cases h
          | some nm =>
            rw [hget] at h
            dsimp only at h
            cases hrec : readExpandedArrayLoop pol tArray c s3 with
            | error es => rw [hrec] at h; cases h
            | ok pr =>
              obtain ⟨rest, s4⟩ := pr
              rw [hrec] at h
              dsimp only at h
              injection h with h1
              have hvs : vs = Value.nestedPlaceholder nN nm :: rest :=
                (congrArg Prod.fst h1).symm
              subst hvs
              cases he with
              | head => exact ⟨nN, nm, rfl⟩
              | tail _ htl => exact ih s3 rest s4 hrec e htl

/-- C5.  An explicitly expanded array whose element type is itself `array`
yields a sequence consisting solely of nested placeholders (each carrying a
nested count and element type name): expansion is exactly one level deep and
never produces nested sequences of decoded scalars. -/
theorem readExpandedArray_nested_placeholders
    (pol : policy) (n : Nat) (nm : String) (s : scanner) (v : Value)
    (lbl : String) (t : scanner)
    (h : readExpandedArray pol tArray n nm s = .ok ((v, lbl), t)) :
    ∃ elems, v = Value.arr elems ∧
      ∀ e ∈ elems, ∃ c tn, e = Value.nestedPlaceholder c tn := by
  unfold readExpandedArray at h
  cases hl : readExpandedArrayLoop pol tArray n s with
  | error es => rw [hl] at h; cases h
  | ok p =>
    obtain ⟨elems, sE⟩ := p
    rw [hl] at h
    dsimp only at h
    injection h with h1
    have hv : v = Value.arr elems := by
      have := congrArg Prod.fst h1
      exact (congrArg Prod.fst this).symm
    exact ⟨elems, hv, expandLoop_nested_all_placeholders n s elems sE hl⟩

/-- Witness for C5: one array-of-array element (nested header `uint8`,
count 1, payload `[7]`) expands to exactly one nested placeholder. -/
theorem readExpandedArray_nested_placeholders_witness :
    ∃ elems, Value.arr [Value.nestedPlaceholder 1 "uint8"] = Value.arr elems ∧
      ∀ e ∈ elems, ∃ c tn, e = Value.nestedPlaceholder c tn :=
  readExpandedArray_nested_placeholders polNone 1 "array"
    { order := ByteOrder.little, data := [0,0,0,0, 1,0,0,0,0,0,0,0, 7], pos := 0 }
    (Value.arr [Value.nestedPlaceholder 1 "uint8"]) "array[array]"
    { order := ByteOrder.little, data := [], pos := 13 } rfl

/-- C4.  For a 24-byte prologue with the correct magic: if the version field
decodes to 3 little-endian, the little order is selected and version,
tensorCount, keyValueCount are decoded in that order unchanged; if only the
big-endian interpretation is 3, big is selected likewise; if neither
interpretation is 3, `newParser` fails with UnsupportedVersion. -/
theorem newParser_endianness_selection
    (data : List Nat) (size : Nat) (pol : policy)
    (hlen : 24 ≤ data.length)
    (hmagic : (data.take 24).take 4 = magicGGUF) :
    (leVal (((data.take 24).drop 4).take 4) = 3 →
      newParser data size pol =
        .ok ({ scn := { order := ByteOrder.little, data := data.drop 24, pos := 24 },
               fileSize := size, endianHint := "LE",
               kvRemain := leVal (((data.take 24).drop 16).take 8), version := 3,
               tc := leVal (((data.take 24).drop 8).take 8),
               kv := leVal (((data.take 24).drop 16).take 8), pol := pol },
             { kind := "header", version := 3,
               tensorCount := leVal (((data.take 24).drop 8).take 8),
               kvCount := leVal (((data.take 24).drop 16).take 8) })) ∧
    (leVal (((data.take 24).drop 4).take 4) ≠ 3 →
     beVal (((data.take 24).drop 4).take 4) = 3 →
      newParser data size pol =
        .ok ({ scn := { order := ByteOrder.big, data := data.drop 24, pos := 24 },
               fileSize := size, endianHint := "BE",
               kvRemain := beVal (((data.take 24).drop 16).take 8), version := 3,
               tc := beVal (((data.take 24).drop 8).take 8),
               kv := beVal (((data.take 24).drop 16).take 8), pol := pol },
             { kind := "header", version := 3,
               tensorCount := beVal (((data.take 24).drop 8).take 8),
               kvCount := beVal (((data.take 24).drop 16).take 8) })) ∧
    (leVal (((data.take 24).drop 4).take 4) ≠ 3 →
     beVal (((data.take 24).drop 4).take 4) ≠ 3 →
      newParser data size pol =
        .error (.unsupportedVersion (leVal (((data.take 24).drop 4).take 4))
                  (beVal (((data.take 24).drop 4).take 4)),
                { order := ByteOrder.little, data := data.drop 24, pos := 24 })) := by
  have hre : (⟨ByteOrder.little, data, 0⟩ : scanner).readExact 24 =
      .ok (data.take 24, ⟨ByteOrder.little, data.drop 24, 24⟩) := by
    unfold scanner.readExact
    simp [hlen]
  refine ⟨?_, ?_, ?_⟩
  · intro hle
    simp only [newParser]
    rw [hre]
    dsimp only
    rw [if_neg (by simp [hmagic])]
    rw [if_pos hle]
    rfl
  · intro hle hbe
    simp only [newParser]
    rw [hre]
    dsimp only
    rw [if_neg (by simp [hmagic])]
    rw [if_neg hle, if_pos hbe]
    rfl
  · intro hle hbe
    simp only [newParser]
    rw [hre]
    dsimp only
    rw [if_neg (by simp [hmagic])]
    rw [if_neg hle, if_neg hbe]

/-- Witness for C4: a little-endian version-3 prologue selects LE and reports
tensorCount 2 and kvCount 5; a big-endian one selects BE; a version field
that is 3 under neither order fails with UnsupportedVersion. -/
theorem newParser_endianness_selection_witness :
    newParser [0x47,0x47,0x55,0x46, 0x03,0x00,0x00,0x00, 0x02,0x00,0x00,0x00,0x00,0x00,0x00,0x00, 0x05,0x00,0x00,0x00,0x00,0x00,0x00,0x00] 0 polNone =
      .ok ({ scn := { order := ByteOrder.little, data := [], pos := 24 },
             fileSize := 0, endianHint := "LE", kvRemain := 5, version := 3,
             tc := 2, kv := 5, pol := polNone },
           { kind := "header", version := 3, tensorCount := 2, kvCount := 5 }) ∧
    newParser [0x47,0x47,0x55,0x46, 0x00,0x00,0x00,0x03, 0x00,0x00,0x00,0x00,0x00,0x00,0x00,0x02, 0x00,0x00,0x00,0x00,0x00,0x00,0x00,0x05] 0 polNone =
      .ok ({ scn := { order := ByteOrder.big, data := [], pos := 24 },
             fileSize := 0, endianHint := "BE", kvRemain := 5, version := 3,
             tc := 2, kv := 5, pol := polNone },
           { kind := "header", version := 3, tensorCount := 2, kvCount := 5 }) ∧
    newParser [0x47,0x47,0x55,0x46, 0x07,0x00,0x00,0x00, 0x09,0x01,0x02,0x03,0x04,0x05,0x06,0x07, 0x08,0x07,0x06,0x05,0x04,0x03,0x02,0x01] 0 polNone =
      .error (.unsupportedVersion 7 117440512,
              { order := ByteOrder.little, data := [], pos := 24 }) :=
  ⟨(newParser_endianness_selection
      [0x47,0x47,0x55,0x46, 0x03,0x00,0x00,0x00, 0x02,0x00,0x00,0x00,0x00,0x00,0x00,0x00, 0x05,0x00,0x00,0x00,0x00,0x00,0x00,0x00] 0 polNone
      (by decide) rfl).1 rfl,
   (newParser_endianness_selection
      [0x47,0x47,0x55,0x46, 0x00,0x00,0x00,0x03, 0x00,0x00,0x00,0x00,0x00,0x00,0x00,0x02, 0x00,0x00,0x00,0x00,0x00,0x00,0x00,0x05] 0 polNone
      (by decide) rfl).2.1 (by decide) rfl,
   (newParser_endianness_selection
      [0x47,0x47,0x55,0x46, 0x07,0x00,0x00,0x00, 0x09,0x01,0x02,0x03,0x04,0x05,0x06,0x07, 0x08,0x07,0x06,0x05,0x04,0x03,0x02,0x01] 0 polNone
      (by decide) rfl).2.2 (by decide) (by decide)⟩

/-- C6.  `GGUFString` reads the 8-byte length `L` first (position advances by
exactly 8); if `L` exceeds the cap it fails with the oversize error in
exactly that state — before any payload byte is read; otherwise it reads and
returns exactly `L` payload bytes. -/
theorem GGUFString_length_cap
    (s : scanner) (maxLen L : Nat) (s1 : scanner)
    (hu : s.U64 = .ok (L, s1)) :
    s1.pos = s.pos + 8 ∧
    (L > maxLen → s.GGUFString maxLen = .error (.stringTooLarge L maxLen, s1)) ∧
    (L ≤ maxLen → ∀ (bs : List Nat) (s2 : scanner),
        s1.readExact L = .ok (bs, s2) →
        s.GGUFString maxLen = .ok (bs, s2) ∧ bs.length = L ∧ s2.pos = s1.pos + L) := by
  obtain ⟨-, hs1, -⟩ := scanner.U64_ok hu
  refine ⟨by rw [hs1], ?_, ?_⟩
  · intro hgt
    unfold scanner.GGUFString
    rw [hu]
    dsimp only
    rw [if_pos hgt]
  · intro hle bs s2 hre
    obtain ⟨hw, hbs, hs2⟩ := scanner.readExact_ok hre
    refine ⟨?_, ?_, by rw [hs2]⟩
    · unfold scanner.GGUFString
      rw [hu]
      dsimp only
      rw [if_neg (by omega)]
      exact hre
    · rw [hbs]
      simp only [List.length_take]
      omega

/-- Witness for C6: length prefix 3 with payload `"abc"`; cap 2 fails with
the oversize error at position 8, cap 10 returns exactly the 3 bytes. -/
theorem GGUFString_length_cap_witness :
    ({ order := ByteOrder.little, data := [97,98,99], pos := 8 } : scanner).pos =
      ({ order := ByteOrder.little, data := [3,0,0,0,0,0,0,0, 97,98,99], pos := 0 } : scanner).pos + 8 ∧
    scanner.GGUFString
        { order := ByteOrder.little, data := [3,0,0,0,0,0,0,0, 97,98,99], pos := 0 } 2 =
      .error (.stringTooLarge 3 2, { order := ByteOrder.little, data := [97,98,99], pos := 8 }) ∧
    (scanner.GGUFString
        { order := ByteOrder.little, data := [3,0,0,0,0,0,0,0, 97,98,99], pos := 0 } 10 =
       .ok ([97,98,99], { order := ByteOrder.little, data := [], pos := 11 }) ∧
     ([97,98,99] : List Nat).length = 3 ∧
     ({ order := ByteOrder.little, data := [], pos := 11 } : scanner).pos =
       ({ order := ByteOrder.little, data := [97,98,99], pos := 8 } : scanner).pos + 3) :=
  ⟨(GGUFString_length_cap
      { order := ByteOrder.little, data := [3,0,0,0,0,0,0,0, 97,98,99], pos := 0 } 2 3
      { order := ByteOrder.little, data := [97,98,99], pos := 8 } rfl).1,
   (GGUFString_length_cap
      { order := ByteOrder.little, data := [3,0,0,0,0,0,0,0, 97,98,99], pos := 0 } 2 3
      { order := ByteOrder.little, data := [97,98,99], pos := 8 } rfl).2.1 (by decide),
   (GGUFString_length_cap
      { order := ByteOrder.little, data := [3,0,0,0,0,0,0,0, 97,98,99], pos := 0 } 10 3
      { order := ByteOrder.little, data := [97,98,99], pos := 8 } rfl).2.2 (by decide)
     [97,98,99] { order := ByteOrder.little, data := [], pos := 11 } rfl⟩

/-- A `nextKV` call that produces a record decrements `kvRemain` by exactly
one. -/
theorem nextKV_true_dec {abv : Bool} {p : parser} {kvv : kvEvent} {p1 : parser}
    (h : nextKV abv p = .ok (kvv, true, p1)) :
    p1.kvRemain + 1 = p.kvRemain := by
  unfold nextKV at h
  by_cases h0 : p.kvRemain = 0
  · rw [if_pos h0] at h
    injection h with h1
    have hb : false = true := congrArg (fun x => x.2.1) h1
    cases hb
  · rw [if_neg h0] at h
    cases hgs : p.scn.GGUFString p.pol.maxString with
    | error es =>
      obtain ⟨e, serr⟩ := es
      rw [hgs] at h
      cases h
    | ok pr =>
      obtain ⟨key, s1⟩ := pr
      rw [hgs] at h
      dsimp only at h
      cases hu : s1.U32 with
      | error es =>
        obtain ⟨e, serr⟩ := es
        rw [hu] at h
        cases h
      | ok q =>
        obtain ⟨tag, s2⟩ := q
        rw [hu] at h
        dsimp only at h
        cases hrv : readValue abv p.pol tag key s2 with
        | error es =>
          obtain ⟨e, serr⟩ := es
          rw [hrv] at h
          cases h
        | ok r =>
          obtain ⟨⟨val, typ, omitted⟩, s3⟩ := r
          rw [hrv] at h
          dsimp only at h
          cases omitted with
          | true =>
            injection h with h1
            have hp1 : p1 = { p with scn := s3, kvRemain := p.kvRemain - 1 } :=
              (congrArg (fun x => x.2.2) h1).symm
            rw [hp1]
            dsimp only
            omega
          | false =>
            injection h with h1
            have hp1 : p1 = { p with scn := s3, kvRemain := p.kvRemain - 1 } :=
              (congrArg (fun x => x.2.2) h1).symm
            rw [hp1]
            dsimp only
            omega

/-- `newParser` initialises `kvRemain` to the header field `kvCount`. -/
theorem newParser_kvRemain_init {data : List Nat} {size : Nat} {pol : policy}
    {pr : parser} {hdr : headerEvent}
    (h : newParser data size pol = .ok (pr, hdr)) :
    pr.kvRemain = hdr.kvCount := by
  simp only [newParser] at h
  cases hre : (⟨ByteOrder.little, data, 0⟩ : scanner).readExact 24 with
  | error es =>
    obtain ⟨e, serr⟩ := es
    rw [hre] at h
    cases h
  | ok pr2 =>
    obtain ⟨hb, scn1⟩ := pr2
    rw [hre] at h
    dsimp only at h
    split at h
    · cases h
    · by_cases hle : leVal ((hb.drop 4).take 4) = 3
      · rw [if_pos hle] at h
        dsimp only at h
        injection h with h1
        have e1 : pr = _ := (congrArg Prod.fst h1).symm
        have e2 : hdr = _ := (congrArg Prod.snd h1).symm
        rw [e1, e2]
      · rw [if_neg hle] at h
        by_cases hbe : beVal ((hb.drop 4).take 4) = 3
        · rw [if_pos hbe] at h
          dsimp only at h
          injection h with h1
          have e1 : pr = _ := (congrArg Prod.fst h1).symm
          have e2 : hdr = _ := (congrArg Prod.snd h1).symm
          rw [e1, e2]
        · rw [if_neg hbe] at h
          cases h

/-- C7.  The key-value stream bookkeeping: a produced record decrements
`kvRemain` by exactly one; once `kvRemain` is 0 every further `nextKV` call
reports no-more with the parser (and its scanner) untouched; consequently the
driver loop never produces more records than `kvRemain`, which `newParser`
initialises to the header field `kvCount`. -/
theorem nextKV_count_bookkeeping :
    (∀ (abv : Bool) (p : parser) (kvv : kvEvent) (p1 : parser),
        nextKV abv p = .ok (kvv, true, p1) → p1.kvRemain + 1 = p.kvRemain) ∧
    (∀ (abv : Bool) (p : parser), p.kvRemain = 0 →
        nextKV abv p = .ok (emptyKVEvent, false, p)) ∧
    (∀ (abv : Bool) (k : Nat) (p : parser), countRecords abv k p ≤ p.kvRemain) ∧
    (∀ (data : List Nat) (size : Nat) (pol : policy) (pr : parser) (hdr : headerEvent),
        newParser data size pol = .ok (pr, hdr) → pr.kvRemain = hdr.kvCount) := by
  refine ⟨fun abv p kvv p1 h => nextKV_true_dec h, ?_, ?_, ?_⟩
  · intro abv p h0
    unfold nextKV
    rw [if_pos h0]
  · intro abv k
    induction k with
    | zero => intro p; simp [countRecords]
    | succ k ih =>
      intro p
      simp only [countRecords]
      cases hn : nextKV abv p with
      | error es => exact Nat.zero_le _
      | ok trip =>
        obtain ⟨kvv, more, p1⟩ := trip
        cases more with
        | false => exact Nat.zero_le _
        | true =>
          have hdec := nextKV_true_dec hn
          have := ih p1
          show countRecords abv k p1 + 1 ≤ p.kvRemain
          omega
  · intro data size pol pr hdr h
    exact newParser_kvRemain_init h

/-- Witness for C7: producing the single record drops `kvRemain` from 1 to 0;
the exhausted parser reports no-more unchanged; the driver loop produces at
most `kvRemain` records; `newParser` hands `kvCount` to `kvRemain`. -/
theorem nextKV_count_bookkeeping_witness :
    pC7done.kvRemain + 1 = pC7.kvRemain ∧
    nextKV false pC7done = .ok (emptyKVEvent, false, pC7done) ∧
    countRecords false 3 pC7 ≤ pC7.kvRemain ∧
    ({ scn := { order := ByteOrder.little, data := [], pos := 24 },
       fileSize := 0, endianHint := "LE", kvRemain := 1, version := 3,
       tc := 1, kv := 1, pol := polNone } : parser).kvRemain =
      ({ kind := "header", version := 3, tensorCount := 1,
         kvCount := 1 } : headerEvent).kvCount :=
  ⟨nextKV_count_bookkeeping.1 false pC7 { key := [97], type := "uint32", value := Value.u32 42 }
     pC7done rfl,
   nextKV_count_bookkeeping.2.1 false pC7done rfl,
   nextKV_count_bookkeeping.2.2.1 false 3 pC7,
   nextKV_count_bookkeeping.2.2.2
     [0x47,0x47,0x55,0x46, 0x03,0x00,0x00,0x00,
      0x01,0x00,0x00,0x00,0x00,0x00,0x00,0x00, 0x01,0x00,0x00,0x00,0x00,0x00,0x00,0x00]
     0 polNone
     { scn := { order := ByteOrder.little, data := [], pos := 24 },
       fileSize := 0, endianHint := "LE", kvRemain := 1, version := 3,
       tc := 1, kv := 1, pol := polNone }
     { kind := "header", version := 3, tensorCount := 1, kvCount := 1 } rfl⟩

/-- C8.  On the concrete scenario bytes, `newParser` selects little-endian
and reports header fields version 3, tensorCount 1, kvCount 1, and the first
`nextKV` call produces exactly the record key `"a"`, type `"uint32"`,
value 42, consuming the stream. -/
theorem gguf_scenario_decode :
    newParser dataC8 0 polNone =
      .ok (pC8, { kind := "header", version := 3, tensorCount := 1, kvCount := 1 }) ∧
    pC8.scn.order = ByteOrder.little ∧
    pC8.endianHint = "LE" ∧
    nextKV false pC8 =
      .ok ({ key := [97], type := "uint32", value := Value.u32 42 }, true,
           { pC8 with scn := { order := ByteOrder.little, data := [], pos := 41 },
                      kvRemain := 0 }) :=
  ⟨rfl, rfl, rfl, rfl⟩

/-- C9.  Every primitive read advances the position by exactly its declared
width (1, 2, 4 or 8 bytes; `readExact n` by exactly `n`), a failed read
leaves the position unchanged, and the derived reads (`GGUFString`, `Align`)
only ever move the position forward — so the position is monotonically
non-decreasing across any sequence of scanner operations. -/
theorem scanner_read_widths (s : scanner) :
    (∀ (n : Nat) (bs : List Nat) (s1 : scanner),
        s.readExact n = .ok (bs, s1) → s1.pos = s.pos + n) ∧
    (∀ (n : Nat) (e : Err) (s1 : scanner),
        s.readExact n = .error (e, s1) → s1.pos = s.pos) ∧
    (∀ (v : Nat) (s1 : scanner), s.U8 = .ok (v, s1) → s1.pos = s.pos + 1) ∧
    (∀ (v : Int) (s1 : scanner), s.I8 = .ok (v, s1) → s1.pos = s.pos + 1) ∧
    (∀ (v : Nat) (s1 : scanner), s.U16 = .ok (v, s1) → s1.pos = s.pos + 2) ∧
    (∀ (v : Int) (s1 : scanner), s.I16 = .ok (v, s1) → s1.pos = s.pos + 2) ∧
    (∀ (v : Nat) (s1 : scanner), s.U32 = .ok (v, s1) → s1.pos = s.pos + 4) ∧
    (∀ (v : Int) (s1 : scanner), s.I32 = .ok (v, s1) → s1.pos = s.pos + 4) ∧
    (∀ (v : Nat) (s1 : scanner), s.U64 = .ok (v, s1) → s1.pos = s.pos + 8) ∧
    (∀ (v : Int) (s1 : scanner), s.I64 = .ok (v, s1) → s1.pos = s.pos + 8) ∧
    (∀ (v : Nat) (s1 : scanner), s.F32 = .ok (v, s1) → s1.pos = s.pos + 4) ∧
    (∀ (v : Nat) (s1 : scanner), s.F64 = .ok (v, s1) → s1.pos = s.pos + 8) ∧
    (∀ (max : Nat) (bs : List Nat) (s1 : scanner),
        s.GGUFString max = .ok (bs, s1) → s.pos ≤ s1.pos) ∧
    (∀ (n : Nat) (s1 : scanner), s.Align n = .ok s1 → s.pos ≤ s1.pos) := by
  refine ⟨?_, ?_, ?_, ?_, ?_, ?_, ?_, ?_, ?_, ?_, ?_, ?_, ?_, ?_⟩
  · intro n bs s1 h
    rw [(scanner.readExact_ok h).2.2]
  · intro n e s1 h
    rw [(scanner.readExact_err h).2]
  · intro v s1 h
    rw [(scanner.U8_ok h).2.1]
  · intro v s1 h
    rw [(scanner.I8_ok h).2.1]
  · intro v s1 h
    rw [(scanner.U16_ok h).2.1]
  · intro v s1 h
    rw [(scanner.I16_ok h).2.1]
  · intro v s1 h
    rw [(scanner.U32_ok h).2.1]
  · intro v s1 h
    rw [(scanner.I32_ok h).2.1]
  · intro v s1 h
    rw [(scanner.U64_ok h).2.1]
  · intro v s1 h
    rw [(scanner.I64_ok h).2.1]
  · intro v s1 h
    rw [(scanner.U32_ok h).2.1]
  · intro v s1 h
    rw [(scanner.U64_ok h).2.1]
  · intro max bs s1 h
    obtain ⟨n, sA, hu, hle, hre⟩ := scanner.GGUFString_ok h
    obtain ⟨-, hsA, -⟩ := scanner.U64_ok hu
    obtain ⟨-, -, hs1⟩ := scanner.readExact_ok hre
    rw [hs1, hsA]
    dsimp only
    omega
  · intro n s1 h
    unfold scanner.Align at h
    split at h
    · injection h with h1
      rw [← h1]
    · split at h
      · obtain ⟨q, hq, hb⟩ := except_map_ok h
        obtain ⟨-, -, hadv⟩ := scanner.readExact_ok hq
        rw [hb, hadv]
        dsimp only
        omega
      · injection h with h1
        rw [← h1]

/-- Witness for C9 at a concrete scanner (position 5, nine bytes): a 4-byte
exact read lands at 9, a failed read stays at 5, `U8` lands at 6, `U64` at
13, a length-1 `GGUFString` at 14, and `Align 4` at 8 — all non-decreasing. -/
theorem scanner_read_widths_witness :
    ({ order := ByteOrder.little, data := [0,0,0,0,97], pos := 9 } : scanner).pos =
      ({ order := ByteOrder.little, data := [1,0,0,0,0,0,0,0,97], pos := 5 } : scanner).pos + 4 ∧
    ({ order := ByteOrder.little, data := [], pos := 5 } : scanner).pos =
      ({ order := ByteOrder.little, data := [1,0,0,0,0,0,0,0,97], pos := 5 } : scanner).pos ∧
    ({ order := ByteOrder.little, data := [0,0,0,0,0,0,0,97], pos := 6 } : scanner).pos =
      ({ order := ByteOrder.little, data := [1,0,0,0,0,0,0,0,97], pos := 5 } : scanner).pos + 1 ∧
    ({ order := ByteOrder.little, data := [97], pos := 13 } : scanner).pos =
      ({ order := ByteOrder.little, data := [1,0,0,0,0,0,0,0,97], pos := 5 } : scanner).pos + 8 ∧
    ({ order := ByteOrder.little, data := [1,0,0,0,0,0,0,0,97], pos := 5 } : scanner).pos ≤
      ({ order := ByteOrder.little, data := [], pos := 14 } : scanner).pos ∧
    ({ order := ByteOrder.little, data := [1,0,0,0,0,0,0,0,97], pos := 5 } : scanner).pos ≤
      ({ order := ByteOrder.little, data := [0,0,0,0,0,97], pos := 8 } : scanner).pos :=
  ⟨(scanner_read_widths { order := ByteOrder.little, data := [1,0,0,0,0,0,0,0,97], pos := 5 }).1
     4 [1,0,0,0] { order := ByteOrder.little, data := [0,0,0,0,97], pos := 9 } rfl,
   (scanner_read_widths { order := ByteOrder.little, data := [1,0,0,0,0,0,0,0,97], pos := 5 }).2.1
     100 .shortRead { order := ByteOrder.little, data := [], pos := 5 } rfl,
   (scanner_read_widths { order := ByteOrder.little, data := [1,0,0,0,0,0,0,0,97], pos := 5 }).2.2.1
     1 { order := ByteOrder.little, data := [0,0,0,0,0,0,0,97], pos := 6 } rfl,
   (scanner_read_widths
      { order := ByteOrder.little, data := [1,0,0,0,0,0,0,0,97], pos := 5 }).2.2.2.2.2.2.2.2.1
     1 { order := ByteOrder.little, data := [97], pos := 13 } rfl,
   (scanner_read_widths
      { order := ByteOrder.little,
        data := [1,0,0,0,0,0,0,0,97], pos := 5 }).2.2.2.2.2.2.2.2.2.2.2.2.1
     5 [97] { order := ByteOrder.little, data := [], pos := 14 } rfl,
   (scanner_read_widths
      { order := ByteOrder.little,
        data := [1,0,0,0,0,0,0,0,97], pos := 5 }).2.2.2.2.2.2.2.2.2.2.2.2.2
     4 { order := ByteOrder.little, data := [0,0,0,0,0,97], pos := 8 } rfl⟩

/-- C10.  A failing `nextKV` call leaves `kvRemain` untouched: the decrement
happens only after a fully successful key, tag and value decode, so a failed
entry never consumes a record slot. -/
theorem nextKV_error_preserves_kvRemain
    (abv : Bool) (p : parser) (e : Err) (p1 : parser)
    (h : nextKV abv p = .error (e, p1)) :
    p1.kvRemain = p.kvRemain := by
  unfold nextKV at h
  by_cases h0 : p.kvRemain = 0
  · rw [if_pos h0] at h
    cases h
  · rw [if_neg h0] at h
    cases hgs : p.scn.GGUFString p.pol.maxString with
    | error es =>
      obtain ⟨e2, serr⟩ := es
      rw [hgs] at h
      dsimp only at h
      injection h with h1
      have hp1 : p1 = { p with scn := serr } := (congrArg Prod.snd h1).symm
      rw [hp1]
    | ok pr =>
      obtain ⟨key, s1⟩ := pr
      rw [hgs] at h
      dsimp only at h
      cases hu : s1.U32 with
      | error es =>
        obtain ⟨e2, serr⟩ := es
        rw [hu] at h
        dsimp only at h
        injection h with h1
        have hp1 : p1 = { p with scn := serr } := (congrArg Prod.snd h1).symm
        rw [hp1]
      | ok q =>
        obtain ⟨tag, s2⟩ := q
        rw [hu] at h
        dsimp only at h
        cases hrv : readValue abv p.pol tag key s2 with
        | error es =>
          obtain ⟨e2, serr⟩ := es
          rw [hrv] at h
          dsimp only at h
          injection h with h1
          have hp1 : p1 = { p with scn := serr } := (congrArg Prod.snd h1).symm
          rw [hp1]
        | ok r =>
          obtain ⟨⟨val, typ, omitted⟩, s3⟩ := r
          rw [hrv] at h
          dsimp only at h
          cases omitted with
          | true => cases h
          | false => cases h

/-- Witness for C10: a parser with one entry remaining over an exhausted
stream fails with ShortRead, and its `kvRemain` is still 1. -/
theorem nextKV_error_preserves_kvRemain_witness :
    nextKV false
        { scn := { order := ByteOrder.little, data := [], pos := 30 },
          fileSize := 0, endianHint := "LE", kvRemain := 1, version := 3,
          tc := 1, kv := 1, pol := polNone } =
      .error (.shortRead,
              { scn := { order := ByteOrder.little, data := [], pos := 30 },
                fileSize := 0, endianHint := "LE", kvRemain := 1, version := 3,
                tc := 1, kv := 1, pol := polNone }) ∧
    ({ scn := { order := ByteOrder.little, data := [], pos := 30 },
       fileSize := 0, endianHint := "LE", kvRemain := 1, version := 3,
       tc := 1, kv := 1, pol := polNone } : parser).kvRemain =
      ({ scn := { order := ByteOrder.little, data := [], pos := 30 },
         fileSize := 0, endianHint := "LE", kvRemain := 1, version := 3,
         tc := 1, kv := 1, pol := polNone } : parser).kvRemain :=
  ⟨rfl,
   nextKV_error_preserves_kvRemain false
     { scn := { order := ByteOrder.little, data := [], pos := 30 },
       fileSize := 0, endianHint := "LE", kvRemain := 1, version := 3,
       tc := 1, kv := 1, pol := polNone }
     .shortRead
     { scn := { order := ByteOrder.little, data := [], pos := 30 },
       fileSize := 0, endianHint := "LE", kvRemain := 1, version := 3,
       tc := 1, kv := 1, pol := polNone }
     rfl⟩

/-- `Except.map` does not change an error. -/
theorem except_map_err {ε α β : Type} {f : α → β} {e : Except ε α} {x : ε}
    (h : e.map f = .error x) : e = .error x := by
  cases e with
  | error y => simpa [Except.map] using h
  | ok a => cases h

/-- `GGUFString` never produces the fuel artefact error. -/
theorem ggufString_err_not_fuel {s : scanner} {max : Nat} {e : Err} {serr : scanner}
    (h : s.GGUFString max = .error (e, serr)) : e ≠ .fuelExhausted := by
  unfold scanner.GGUFString at h
  cases hu : s.U64 with
  | error es =>
    obtain ⟨e2, s2⟩ := es
    rw [hu] at h
    dsimp only at h
    injection h with h1
    have he : e2 = e := congrArg Prod.fst h1
    have h2 := except_map_err hu
    have := (scanner.readExact_err h2).1
    rw [← he, this]
    intro hc
    cases hc
  | ok p =>
    obtain ⟨n, sA⟩ := p
    rw [hu] at h
    dsimp only at h
    split at h
    · injection h with h1
      have he : Err.stringTooLarge n max = e := congrArg Prod.fst h1
      rw [← he]
      intro hc
      cases hc
    · have := (scanner.readExact_err h).1
      rw [this]
      intro hc
      cases hc

/-- Every decoder in the `scalars` table fails only with ShortRead. -/
theorem scalars_err_shortRead :
    ∀ o ∈ scalars, ∀ dec : scalarDec, o = some dec →
      ∀ (s : scanner) (e : Err) (serr : scanner),
        dec s = .error (e, serr) → e = .shortRead := by
  intro o ho
  fin_cases ho <;>
    · intro dec hdec s e serr hd
      first
      | exact Option.noConfusion hdec
      | · injection hdec with h1
          subst h1
          have h2 := except_map_err hd
          have h3 := except_map_err h2
          exact (scanner.readExact_err h3).1

/-- `readScalar` never produces the fuel artefact error. -/
theorem readScalar_err_not_fuel {pol : policy} {tag : Nat} {s : scanner}
    {e : Err} {serr : scanner}
    (h : readScalar pol tag s = .error (e, serr)) : e ≠ .fuelExhausted := by
  unfold readScalar at h
  split at h
  · cases hgs : s.GGUFString pol.maxString with
    | error es =>
      obtain ⟨e2, s2⟩ := es
      rw [hgs] at h
      dsimp only at h
      injection h with h1
      have he : e2 = e := congrArg Prod.fst h1
      rw [← he]
      exact ggufString_err_not_fuel hgs
    | ok p =>
      obtain ⟨bs, sB⟩ := p
      rw [hgs] at h
      cases h
  · split at h
    · injection h with h1
      have he : Err.badScalarTag tag = e := congrArg Prod.fst h1
      rw [← he]
      intro hc
      cases hc
    · rename_i dec heq
      cases hd : dec s with
      | error es =>
        obtain ⟨e2, s2⟩ := es
        rw [hd] at h
        injection h with h1
        have he : e2 = e := congrArg Prod.fst h1
        have htag : tag < scalars.length := by
          by_contra hh
          push_neg at hh
          rw [List.getD_eq_default _ _ hh] at heq
          cases heq
        have hmem : scalars.getD tag none ∈ scalars := by
          rw [List.getD_eq_getElem _ _ htag]
          exact List.getElem_mem _
        have := scalars_err_shortRead _ hmem dec heq s e2 s2 hd
        rw [← he, this]
        intro hc
        cases hc
      | ok p =>
        obtain ⟨v0, sB⟩ := p
        rw [hd] at h
        cases h

/-- If a step never fails with the fuel artefact on states of length at most
`L` and never grows the data, neither does the loop. -/
theorem iterSkip_no_fuel {step : scanner → Except (Err × scanner) scanner} {L : Nat}
    (hlen : ∀ t r, step t = .ok r → r.data.length ≤ t.data.length)
    (hstep : ∀ t u, t.data.length ≤ L → step t ≠ .error (.fuelExhausted, u)) :
    ∀ (n : Nat) (s t : scanner), s.data.length ≤ L →
      iterSkip step n s ≠ .error (.fuelExhausted, t) := by
  intro n
  induction n with
  | zero =>
    intro s t hs h
    simp [iterSkip] at h
  | succ c ih =>
    intro s t hs h
    simp only [iterSkip] at h
    cases hst : step s with
    | error es =>
      obtain ⟨e2, u⟩ := es
      rw [hst] at h
      injection h with h1
      have he : e2 = Err.fuelExhausted := congrArg Prod.fst h1
      subst he
      exact hstep s u hs hst
    | ok sA =>
      rw [hst] at h
      exact ih sA t (le_trans (hlen _ _ hst) hs) h

/-- `skipF` with fuel exceeding the remaining length never exhausts its fuel:
the wrapper choice of `s.data.length + 1` is always adequate, so the fuel
encoding is a faithful rendering of the Go recursion. -/
theorem skipF_no_fuelExhausted {pol : policy} :
    ∀ (L f et n : Nat) (s t : scanner),
      s.data.length ≤ L → L < f →
      skipF pol f et n s ≠ .error (.fuelExhausted, t) := by
  intro L
  induction L with
  | zero =>
    intro f et n s t hs hf
    obtain ⟨a, rfl⟩ : ∃ a, f = a + 1 := ⟨f - 1, by omega⟩
    simp only [skipF]
    by_cases hA : et = tArray
    · simp only [if_pos hA]
      refine iterSkip_no_fuel skipF_nested_step_len ?_ n s t hs
      intro u w hu hc
      cases hq : u.U32 with
      | error es =>
        obtain ⟨e2, u2⟩ := es
        rw [hq] at hc
        injection hc with h1
        have he : e2 = Err.fuelExhausted := congrArg Prod.fst h1
        have h2 := except_map_err hq
        have := (scanner.readExact_err h2).1
        rw [this] at he
        cases he
      | ok p =>
        obtain ⟨nET, u1⟩ := p
        obtain ⟨-, -, hw⟩ := scanner.U32_ok hq
        omega
    · simp only [if_neg hA]
      refine iterSkip_no_fuel ?_ ?_ n s t hs
      · intro u w hstep
        cases hrs : readScalar pol et u with
        | error es => rw [hrs] at hstep; cases hstep
        | ok p =>
          obtain ⟨⟨vv, ll⟩, u1⟩ := p
          rw [hrs] at hstep
          injection hstep with h1
          rw [← h1]
          exact le_of_lt (readScalar_ok_len hrs)
      · intro u w hu hc
        cases hrs : readScalar pol et u with
        | error es =>
          obtain ⟨e2, u2⟩ := es
          rw [hrs] at hc
          injection hc with h1
          have he : e2 = Err.fuelExhausted := congrArg Prod.fst h1
          exact readScalar_err_not_fuel hrs he
        | ok p =>
          obtain ⟨⟨vv, ll⟩, u1⟩ := p
          rw [hrs] at hc
          cases hc
  | succ M ih =>
    intro f et n s t hs hf
    obtain ⟨a, rfl⟩ : ∃ a, f = a + 1 := ⟨f - 1, by omega⟩
    simp only [skipF]
    by_cases hA : et = tArray
    · simp only [if_pos hA]
      refine iterSkip_no_fuel skipF_nested_step_len ?_ n s t hs
      intro u w hu hc
      cases hq : u.U32 with
      | error es =>
        obtain ⟨e2, u2⟩ := es
        rw [hq] at hc
        injection hc with h1
        have he : e2 = Err.fuelExhausted := congrArg Prod.fst h1
        have h2 := except_map_err hq
        have := (scanner.readExact_err h2).1
        rw [this] at he
        cases he
      | ok p =>
        obtain ⟨nET, u1⟩ := p
        rw [hq] at hc
        dsimp only at hc
        cases hv : u1.U64 with
        | error es =>
          obtain ⟨e2, u2⟩ := es
          rw [hv] at hc
          injection hc with h1
          have he : e2 = Err.fuelExhausted := congrArg Prod.fst h1
          have h2 := except_map_err hv
          have := (scanner.readExact_err h2).1
          rw [this] at he
          cases he
        | ok q =>
          obtain ⟨nN, u2⟩ := q
          rw [hv] at hc
          dsimp only at hc
          obtain ⟨-, hu1, hw1⟩ := scanner.U32_ok hq
          obtain ⟨-, hu2, hw2⟩ := scanner.U64_ok hv
          have e2 : u2.data.length + 12 ≤ u.data.length := by
            rw [hu2, hu1]
            rw [hu1] at hw2
            simp only [List.length_drop] at hw2 ⊢
            omega
          exact ih a nET nN u2 w (by omega) (by omega) hc
    · simp only [if_neg hA]
      refine iterSkip_no_fuel ?_ ?_ n s t hs
      · intro u w hstep
        cases hrs : readScalar pol et u with
        | error es => rw [hrs] at hstep; cases hstep
        | ok p =>
          obtain ⟨⟨vv, ll⟩, u1⟩ := p
          rw [hrs] at hstep
          injection hstep with h1
          rw [← h1]
          exact le_of_lt (readScalar_ok_len hrs)
      · intro u w hu hc
        cases hrs : readScalar pol et u with
        | error es =>
          obtain ⟨e2, u2⟩ := es
          rw [hrs] at hc
          injection hc with h1
          have he : e2 = Err.fuelExhausted := congrArg Prod.fst h1
          exact readScalar_err_not_fuel hrs he
        | ok p =>
          obtain ⟨⟨vv, ll⟩, u1⟩ := p
          rw [hrs] at hc
          cases hc

/-- The wrapper `bulkSkipArrayElements` never reports the fuel artefact: its
behaviour coincides with the unbounded Go recursion. -/
theorem bulkSkip_no_fuelExhausted {pol : policy} {et n : Nat} {s t : scanner} :
    bulkSkipArrayElements pol et n s ≠ .error (.fuelExhausted, t) :=
  skipF_no_fuelExhausted s.data.length (s.data.length + 1) et n s t le_rfl
    (by omega)
